import Mathlib

/-!
Shallow embedding of the rmq queue engine (`queue.go`) over an explicit
redis store model, with theorems checking the specification's claims.

Conventions of the embedding:
* Go `int` is modelled as `Int` (Lean); redis counts, list lengths and
  loop counters that are provably non-negative use `Nat`.
* A redis command result is `Except RedisErr α`; `redis.Nil` is the
  distinguished `RedisErr.nilErr`.  `log.Panicf` (which aborts the
  process, returning nothing to the caller) is modelled as `Option`
  results where `none` means panic.
* The redis database is `Store := String → RValue` where an `RValue`
  is a list, a sorted set, a plain set, or absent — redis keys are
  dynamically typed, and a command applied to a key of the wrong type
  yields a WRONGTYPE error.
-/

namespace Rmq

/-- Redis command errors: `nilErr` is `redis.Nil`; `wrongType` is the
WRONGTYPE error for a command applied to a key holding the wrong kind of
value; `otherErr` stands for any other error (network failure etc.). -/
inductive RedisErr where
  | nilErr
  | wrongType
  | otherErr
deriving DecidableEq, Repr

/-- Embeds `redisErrIsNil` (queue.go:529-539): returns `some false` when
there is no error, `some true` when the error is `redis.Nil`, and panics
(`none`) on any other error. -/
def redisErrIsNil {α : Type} : Except RedisErr α → Option Bool
  | .ok _ => some false
  | .error .nilErr => some true
  | .error _ => none

/-- `result.Val()` of a go-redis integer command: the value on success,
the zero value on error. -/
def resVal : Except RedisErr Int → Int
  | .ok v => v
  | .error _ => 0

/-- `ReadyCount` (queue.go:165-171), parametrised by the result of
`LLen` on the ready key: `redis.Nil` yields 0, success yields the
length, any other error panics (`none`). -/
def readyCount (res : Except RedisErr Int) : Option Int :=
  match redisErrIsNil res with
  | none => none
  | some true => some 0
  | some false => some (resVal res)

/-- `UnackedCount` (queue.go:173-179), parametrised by the `LLen` result
on the unacked key. -/
def unackedCount (res : Except RedisErr Int) : Option Int :=
  match redisErrIsNil res with
  | none => none
  | some true => some 0
  | some false => some (resVal res)

/-- `RejectedCount` (queue.go:181-187), parametrised by the `LLen`
result on the rejected key. -/
def rejectedCount (res : Except RedisErr Int) : Option Int :=
  match redisErrIsNil res with
  | none => none
  | some true => some 0
  | some false => some (resVal res)

/-- `DelayedCount` (queue.go:189-195), parametrised by the `ZCount`
result on the delayed key. -/
def delayedCount (res : Except RedisErr Int) : Option Int :=
  match redisErrIsNil res with
  | none => none
  | some true => some 0
  | some false => some (resVal res)

/-! ### Queue instance state (the fields of `redisQueue` that the
consuming lifecycle mutates: queue.go:56-71) -/

/-- The mutable consuming-related state of a `redisQueue` instance.
`deliveryChan` is `none` for the nil channel and `some capacity` once
`make(chan Delivery, prefetchLimit)` ran.  `consumeLoops` instruments
how many times `go queue.consume()` was launched. -/
structure QState where
  deliveryChan : Option Int
  prefetchLimit : Int
  pollDuration : Int
  consumingStopped : Bool
  consumeLoops : Nat
deriving DecidableEq, Repr

/-- `StartConsuming` (queue.go:266-282).  `saddRes` is the result of
the `SAdd` registering the queue on the connection; `redisErrIsNil`
panics on a real error and the code panics itself when `SAdd` reports
`redis.Nil`, both modelled as `none`. -/
def startConsuming (q : QState) (saddRes : Except RedisErr Int)
    (pl pd : Int) : Option (QState × Bool) :=
  match q.deliveryChan with
  | some _ => some (q, false)  -- already consuming
  | none =>
    match redisErrIsNil saddRes with
    | none => none
    | some true => none  -- log.Panicf: failed to start consuming
    | some false =>
      some ({ q with prefetchLimit := pl
                     pollDuration := pd
                     deliveryChan := some pl
                     consumeLoops := q.consumeLoops + 1 }, true)

/-- `StopConsuming` (queue.go:284-291). -/
def stopConsuming (q : QState) : QState × Bool :=
  if q.deliveryChan = none ∨ q.consumingStopped then (q, false)
  else ({ q with consumingStopped := true }, true)

/-! ### The redis store: dynamically typed values at string keys -/

/-- A redis value: a list, a sorted set (member/score pairs kept in rank
order), a plain set, or an absent key. -/
inductive RValue where
  | list (xs : List String)
  | zset (xs : List (String × Int))
  | rset (xs : List String)
  | absent
deriving DecidableEq, Repr

/-- The redis database. -/
def Store : Type := String → RValue

/-- Point update of the store. -/
def Store.upd (s : Store) (k : String) (v : RValue) : Store :=
  fun k' => if k' = k then v else s k'

/-- Key of the ready list, `queueReadyTemplate` with the queue name
substituted (queue.go:22,77). -/
def readyKey (name : String) : String :=
  "rmq::queue::[" ++ name ++ "]::ready"

/-- Key of the rejected list (queue.go:23,78). -/
def rejectedKey (name : String) : String :=
  "rmq::queue::[" ++ name ++ "]::rejected"

/-- Key of the delayed sorted set (queue.go:24,79). -/
def delayedKey (name : String) : String :=
  "rmq::queue::[" ++ name ++ "]::delayed"

/-- Key of the per-connection unacked list (queue.go:19,81-82). -/
def unackedKey (connection name : String) : String :=
  "rmq::connection::" ++ connection ++ "::queue::[" ++ name ++ "]::unacked"

/-- The global queue registry key (queue.go:21). -/
def queuesKey : String := "rmq::queues"

/-- `purgeBatchSize` (queue.go:31). -/
def purgeBatchSize : Nat := 100

/-- `LLen(key).Val()`: length of the list at `key`; 0 for an absent key
and 0 for the WRONGTYPE error's zero value (`deleteRedisList` never
checks the error, it reads `Val()` directly, queue.go:485-486). -/
def llenVal (s : Store) (k : String) : Nat :=
  match s k with
  | .list xs => xs.length
  | _ => 0

/-- `LTrim(key, 0, -1-b)` (queue.go:500): keeps ranks `0 .. len-1-b`,
i.e. removes the last `b` elements of the list; no-op on a key that
does not hold a list. -/
def ltrimDropLast (s : Store) (k : String) (b : Nat) : Store :=
  match s k with
  | .list xs => s.upd k (.list (xs.take (xs.length - b)))
  | _ => s

/-- `ZCount(key, "-inf", "+inf").Val()`: cardinality of the sorted set
at `key`; 0 for an absent key and 0 as the error's zero value when the
key holds another type (`deleteRedisSortedSet` never checks the error,
queue.go:507-508). -/
def zcountVal (s : Store) (k : String) : Nat :=
  match s k with
  | .zset xs => xs.length
  | _ => 0

/-- `ZRemRangeByRank(key, 0, -1-b)` (queue.go:522): redis normalises
the stop index `-1-b` to `len-1-b`; when that is still negative the
range is empty and nothing is removed, otherwise ranks
`0 .. len-1-b` are removed, keeping the last `b` elements. -/
def zremrangeDropFront (s : Store) (k : String) (b : Nat) : Store :=
  match s k with
  | .zset xs =>
    if xs.length ≤ b then s
    else s.upd k (.zset (xs.drop (xs.length - b)))
  | _ => s

/-- `SRem(key, member)` (queue.go:158): removes `member` from the set at
`key`, returning how many members were removed; absent key removes
nothing; WRONGTYPE error on a key of another type. -/
def srem (s : Store) (k m : String) : Store × Except RedisErr Int :=
  match s k with
  | .rset xs =>
    (s.upd k (.rset (xs.filter (fun x => x ≠ m))), .ok (xs.count m))
  | .absent => (s, .ok 0)
  | _ => (s, .error .wrongType)

/-- The trim loop of `deleteRedisList` (queue.go:492-501): repeatedly
trim away `min purgeBatchSize todo` elements while `todo > 0`,
decrementing `todo` by `purgeBatchSize` each pass (the Go counter is an
`int` driven down from `total ≥ 0`, so Nat subtraction reproduces its
iteration count exactly). -/
def deleteRedisListLoop (s : Store) (k : String) (todo : Nat) : Store :=
  if todo = 0 then s
  else
    deleteRedisListLoop (ltrimDropLast s k (min purgeBatchSize todo)) k
      (todo - purgeBatchSize)
termination_by todo
decreasing_by
  simp only [purgeBatchSize]
  omega

/-- `deleteRedisList` (queue.go:484-504): captures the list length,
trims it away in batches of at most `purgeBatchSize`, and returns the
initially captured total. -/
def deleteRedisList (s : Store) (k : String) : Store × Nat :=
  let total := llenVal s k
  if total = 0 then (s, 0)
  else (deleteRedisListLoop s k total, total)

/-- The removal loop of `deleteRedisSortedSet` (queue.go:514-523),
mirroring `deleteRedisListLoop` with `ZRemRangeByRank`. -/
def deleteRedisSortedSetLoop (s : Store) (k : String) (todo : Nat) : Store :=
  if todo = 0 then s
  else
    deleteRedisSortedSetLoop (zremrangeDropFront s k (min purgeBatchSize todo)) k
      (todo - purgeBatchSize)
termination_by todo
decreasing_by
  simp only [purgeBatchSize]
  omega

/-- `deleteRedisSortedSet` (queue.go:506-526). -/
def deleteRedisSortedSet (s : Store) (k : String) : Store × Nat :=
  let total := zcountVal s k
  if total = 0 then (s, 0)
  else (deleteRedisSortedSetLoop s k total, total)

/-- The batch sizes issued by the purge loops, in order: the loop
running on `todo` issues `min purgeBatchSize todo` and recurses on
`todo - purgeBatchSize`. -/
def trimBatches (todo : Nat) : List Nat :=
  if todo = 0 then []
  else min purgeBatchSize todo :: trimBatches (todo - purgeBatchSize)
termination_by todo
decreasing_by
  simp only [purgeBatchSize]
  omega

/-- `PurgeReady` (queue.go:141-143). -/
def purgeReady (name : String) (s : Store) : Store × Nat :=
  deleteRedisList s (readyKey name)

/-- `PurgeRejected` (queue.go:146-148). -/
def purgeRejected (name : String) (s : Store) : Store × Nat :=
  deleteRedisList s (rejectedKey name)

/-- `PurgeDelayed` (queue.go:150-152): the source passes
`queue.rejectedKey` to `deleteRedisSortedSet`. -/
def purgeDelayed (name : String) (s : Store) : Store × Nat :=
  deleteRedisSortedSet s (rejectedKey name)

/-- `Close` (queue.go:155-163): purge rejected, purge ready, then
`SRem` the queue name from the global registry; `redisErrIsNil` panics
(`none`) on a real error, `redis.Nil` returns `false`, otherwise the
result is whether a member was removed. -/
def closeQueue (name : String) (s : Store) : Option (Store × Bool) :=
  let s1 := (purgeRejected name s).1
  let s2 := (purgeReady name s1).1
  let (s3, res) := srem s2 queuesKey name
  match redisErrIsNil res with
  | none => none
  | some true => some (s3, false)
  | some false => some (s3, resVal res > 0)

/-! ### Delayed-delivery migration (the Lua script of
`migrateExpiredDeliveries`, queue.go:370-391) -/

/-- One delayed entry: member payload and its score (due unix time).
The sorted set is represented as its rank-ordered element list, so a
well-formed value is sorted by score. -/
structure SEntry where
  member : String
  score : Int
deriving DecidableEq, Repr

/-- The chunking of the script's push loop
(`for i = 1, #val, 100 do rpush(..., unpack(val, i, min(i+99, #val)))`):
successive slices of at most 100 members. -/
def chunks100 : List String → List (List String)
  | [] => []
  | a :: as => (a :: as).take 100 :: chunks100 ((a :: as).drop 100)
termination_by l => l.length
decreasing_by
  simp only [List.length_drop, List.length_cons]
  omega

/-- `zrangebyscore key -inf maxScore`: members whose score is at most
`maxScore`, in rank order (the representation keeps rank order, so
`filter` preserves it). -/
def zrangebyscoreUpTo (xs : List SEntry) (maxScore : Int) : List String :=
  (xs.filter (fun e => e.score ≤ maxScore)).map (fun e => e.member)

/-- The migration script (queue.go:372-386) on a delayed sorted set and
a ready list: select members with score ≤ `now`; if any, remove ranks
`0 .. #val-1` from the set (`zremrangebyrank`, which on the rank-ordered
representation drops the first `#val` entries) and `rpush` them onto the
ready list in chunks of 100. -/
def migrateExpiredDeliveries (delayed : List SEntry) (ready : List String)
    (now : Int) : List SEntry × List String :=
  let val := zrangebyscoreUpTo delayed now
  if val = [] then (delayed, ready)
  else
    (delayed.drop val.length,
     (chunks100 val).foldl (fun r c => r ++ c) ready)

/-! ### The consumption batch (`batchSize` and `consumeBatch`,
queue.go:393-422) -/

/-- The state `consumeBatch` operates on: the ready list (head is the
`LPush` end, so `RPopLPush` pops `getLast`), the unacked list, and the
delivery channel's buffered contents (oldest first). -/
structure CBState where
  ready : List String
  unacked : List String
  buffer : List String
deriving DecidableEq, Repr

/-- `RPopLPush(readyKey, unackedKey)` (queue.go:410): pops the right
end of ready and prepends to unacked; `redis.Nil` (`none`) on empty. -/
def rpoplpush (st : CBState) : Option (String × CBState) :=
  match st.ready.getLast? with
  | none => none
  | some x =>
    some (x, { st with ready := st.ready.dropLast, unacked := x :: st.unacked })

/-- The `for i := 0; i < batchSize; i++` loop body of `consumeBatch`
(queue.go:409-418): pop one payload, abort with `false` on `redis.Nil`,
otherwise enqueue the delivery into the channel buffer. -/
def consumeLoop (st : CBState) : Nat → CBState × Bool
  | 0 => (st, true)
  | n + 1 =>
    match rpoplpush st with
    | none => (st, false)
    | some (x, st') => consumeLoop { st' with buffer := st'.buffer ++ [x] } n

/-- `consumeBatch` (queue.go:404-422): returns `false` immediately when
`batchSize == 0`; a negative `batchSize` runs the loop zero times and
returns `true` (`Int.toNat` of a negative is 0, matching `i < batchSize`
never holding). -/
def consumeBatch (st : CBState) (batchSize : Int) : CBState × Bool :=
  if batchSize = 0 then (st, false)
  else consumeLoop st batchSize.toNat

/-- `batchSize` (queue.go:393-401): `prefetchCount` is the number of
deliveries buffered in the channel, `readyCount` the `ReadyCount()`
result (non-negative: a list length, or 0 on `redis.Nil`). -/
def batchSize (prefetchLimit : Int) (prefetchCount : Nat)
    (readyCount : Nat) : Int :=
  let pl : Int := prefetchLimit - prefetchCount
  if (readyCount : Int) < pl then readyCount else pl

/-! ### The batch-consumer protocol (`consumerBatchConsume`,
queue.go:431-469) -/

/-- Protocol state: the accumulated batch (deliveries as opaque
payloads) and whether the flush timer is armed.  `armed` abstracts the
`time.Timer`: `timer.Reset` arms it, `stopTimer` (queue.go:471-480)
stops it and drains a pending fire, so a fire can only be received
while armed. -/
structure BState where
  batch : List String
  armed : Bool
deriving DecidableEq, Repr

/-- Events the `select` of `consumerBatchConsume` can observe. -/
inductive BEvent where
  | item (d : String)
  | timer
  | closed
deriving DecidableEq, Repr

/-- Result of one pass through the `select`: next state, the flush
callbacks issued (each the batch passed to `consumer.Consume`), whether
`timer.Reset` was called, and whether the goroutine returned (channel
closed). -/
structure BOut where
  next : BState
  flushes : List (List String)
  didReset : Bool
  stopped : Bool
deriving DecidableEq, Repr

/-- One iteration of `consumerBatchConsume`'s loop (queue.go:436-468).
On an item: append; `timer.Reset` exactly when the appended batch has
length 1 (queue.go:451-453); `continue` while below `batchSize`;
otherwise flush, clear the batch, `stopTimer`.  On a timer fire (only
deliverable while armed): flush whatever accumulated.  On channel
closure: return. -/
def bstep (batchLimit : Int) (s : BState) : BEvent → BOut
  | .item d =>
    let batch := s.batch ++ [d]
    let armed := if batch.length = 1 then true else s.armed
    if (batch.length : Int) < batchLimit then
      ⟨⟨batch, armed⟩, [], batch.length = 1, false⟩
    else
      ⟨⟨[], false⟩, [batch], batch.length = 1, false⟩
  | .timer =>
    if s.armed then ⟨⟨[], false⟩, [s.batch], false, false⟩
    else ⟨s, [], false, false⟩
  | .closed => ⟨s, [], false, true⟩

/-- Run the protocol over a sequence of observed events, collecting the
flush callbacks in order; processing stops when the channel closes. -/
def runBatchConsume (batchLimit : Int) : List BEvent → BState →
    BState × List (List String)
  | [], s => (s, [])
  | e :: es, s =>
    let o := bstep batchLimit s e
    if o.stopped then (s, [])
    else
      let r := runBatchConsume batchLimit es o.next
      (r.1, o.flushes ++ r.2)

/-- The deliveries received from the channel before it closed, in
receipt order. -/
def itemsUntilClosed : List BEvent → List String
  | [] => []
  | .closed :: _ => []
  | .item d :: es => d :: itemsUntilClosed es
  | .timer :: es => itemsUntilClosed es

/-! ### The consumption loop (`consume`, queue.go:352-368) -/

/-- The externally visible operations of one `consume` iteration.
`closeChan` would be a `close(queue.deliveryChan)`; the constructor
exists so the trace can express whether the loop ever closes the
channel. -/
inductive CAction where
  | migrate
  | popBatch
  | sleep
  | closeChan
deriving DecidableEq, Repr

/-- The operations of iteration `n` of the loop body (queue.go:353-361):
migrate expired deliveries, consume one batch, and sleep for the poll
duration when `consumeBatch` reported no more work (`wantMore n` is
that report). -/
def iterActions (wantMore : Nat → Bool) (n : Nat) : List CAction :=
  [CAction.migrate, CAction.popBatch] ++
    (if wantMore n then [] else [CAction.sleep])

/-- The trace of `consume` (queue.go:352-368): after each iteration the
stop flag is checked (`stopped n` is its value as read at the end of
iteration `n`); when set the loop returns — emitting nothing further —
otherwise it continues.  `fuel` bounds how many iterations are
observed. -/
def consumeRun (wantMore stopped : Nat → Bool) : Nat → Nat → List CAction
  | 0, _ => []
  | fuel + 1, n =>
    iterActions wantMore n ++
      (if stopped n then [] else consumeRun wantMore stopped fuel (n + 1))

/-- A concrete store exercising purge and close: queue `q` has one
ready item, one rejected item, one not-yet-due delayed entry, and is
registered in the global queue registry. -/
def exStore : Store := fun k =>
  if k = readyKey "q" then .list ["r1"]
  else if k = rejectedKey "q" then .list ["j1"]
  else if k = delayedKey "q" then .zset [("p", 5)]
  else if k = queuesKey then .rset ["q"]
  else .absent

/-! ## Theorems -/

/-- Strings of different lengths are different. -/
theorem ne_of_length_ne {a b : String} (h : a.length ≠ b.length) :
    a ≠ b :=
  fun he => h (he ▸ rfl)

/-- Length of the ready key. -/
theorem readyKey_length (n : String) : (readyKey n).length = n.length + 21 := by
  have h1 : ("rmq::queue::[" : String).length = 13 := rfl
  have h2 : ("]::ready" : String).length = 8 := rfl
  simp only [readyKey, String.length_append, h1, h2]
  omega

/-- Length of the rejected key. -/
theorem rejectedKey_length (n : String) :
    (rejectedKey n).length = n.length + 24 := by
  have h1 : ("rmq::queue::[" : String).length = 13 := rfl
  have h2 : ("]::rejected" : String).length = 11 := rfl
  simp only [rejectedKey, String.length_append, h1, h2]
  omega

/-- Length of the delayed key. -/
theorem delayedKey_length (n : String) :
    (delayedKey n).length = n.length + 23 := by
  have h1 : ("rmq::queue::[" : String).length = 13 := rfl
  have h2 : ("]::delayed" : String).length = 10 := rfl
  simp only [delayedKey, String.length_append, h1, h2]
  omega

/-- Length of the per-connection unacked key. -/
theorem unackedKey_length (c n : String) :
    (unackedKey c n).length = c.length + n.length + 37 := by
  have h1 : ("rmq::connection::" : String).length = 17 := rfl
  have h2 : ("::queue::[" : String).length = 10 := rfl
  have h3 : ("]::unacked" : String).length = 10 := rfl
  simp only [unackedKey, String.length_append, h1, h2, h3]
  omega

/-- The five keys a queue touches are pairwise distinct (their lengths
differ). -/
theorem queue_keys_distinct (n c : String) :
    readyKey n ≠ rejectedKey n ∧ readyKey n ≠ delayedKey n ∧
    rejectedKey n ≠ delayedKey n ∧ queuesKey ≠ readyKey n ∧
    queuesKey ≠ rejectedKey n ∧ queuesKey ≠ delayedKey n ∧
    unackedKey c n ≠ readyKey n ∧ unackedKey c n ≠ rejectedKey n ∧
    unackedKey c n ≠ delayedKey n ∧ unackedKey c n ≠ queuesKey := by
  have hr := readyKey_length n
  have hj := rejectedKey_length n
  have hd := delayedKey_length n
  have hu := unackedKey_length c n
  have hq : (queuesKey : String).length = 11 := rfl
  refine ⟨?_, ?_, ?_, ?_, ?_, ?_, ?_, ?_, ?_, ?_⟩ <;>
    exact ne_of_length_ne (by omega)

/-- Reading the updated key. -/
theorem Store.upd_self (s : Store) (k : String) (v : RValue) :
    s.upd k v k = v := by
  simp [Store.upd]

/-- Reading another key after an update. -/
theorem Store.upd_ne (s : Store) (k : String) (v : RValue) (k' : String)
    (h : k' ≠ k) : s.upd k v k' = s k' := by
  simp [Store.upd, h]

/-- `LTrim` touches only its own key. -/
theorem ltrimDropLast_frame (s : Store) (k : String) (b : Nat)
    (k' : String) (h : k' ≠ k) : ltrimDropLast s k b k' = s k' := by
  unfold ltrimDropLast
  cases s k <;> simp [Store.upd, h]

/-- The list purge loop touches only its own key. -/
theorem deleteRedisListLoop_frame (s : Store) (k : String) (todo : Nat) :
    ∀ k', k' ≠ k → deleteRedisListLoop s k todo k' = s k' := by
  induction s, k, todo using deleteRedisListLoop.induct with
  | case1 s k =>
    intro k' h
    rw [deleteRedisListLoop, if_pos rfl]
  | case2 s k todo h0 ih =>
    intro k' h
    rw [deleteRedisListLoop, if_neg h0]
    rw [ih k' h]
    exact ltrimDropLast_frame s k _ k' h

/-- Starting from a list whose length matches the loop counter, the
list purge loop deletes the whole list. -/
theorem deleteRedisListLoop_empties (s : Store) (k : String) (todo : Nat) :
    ∀ xs : List String, s k = .list xs → xs.length = todo →
      deleteRedisListLoop s k todo k = RValue.list [] := by
  induction s, k, todo using deleteRedisListLoop.induct with
  | case1 s k =>
    intro xs hk hlen
    rw [deleteRedisListLoop, if_pos rfl, hk]
    have : xs = [] := List.length_eq_zero.1 hlen
    rw [this]
  | case2 s k todo h0 ih =>
    intro xs hk hlen
    rw [deleteRedisListLoop, if_neg h0]
    apply ih (xs.take (xs.length - min purgeBatchSize todo))
    · unfold ltrimDropLast
      rw [hk]
      exact Store.upd_self _ _ _
    · rw [List.length_take]
      simp only [purgeBatchSize] at *
      omega

/-- The list purge loop performs exactly the trims of `trimBatches`. -/
theorem deleteRedisListLoop_eq_batches (s : Store) (k : String)
    (todo : Nat) :
    deleteRedisListLoop s k todo =
      (trimBatches todo).foldl (fun t b => ltrimDropLast t k b) s := by
  induction s, k, todo using deleteRedisListLoop.induct with
  | case1 s k =>
    rw [deleteRedisListLoop, if_pos rfl, trimBatches, if_pos rfl]
    rfl
  | case2 s k todo h0 ih =>
    rw [deleteRedisListLoop, if_neg h0, trimBatches, if_neg h0, ih]
    rfl

/-- Every purge trim removes at most `purgeBatchSize` elements. -/
theorem trimBatches_le (todo : Nat) :
    ∀ b ∈ trimBatches todo, b ≤ purgeBatchSize := by
  induction todo using trimBatches.induct with
  | case1 => simp [trimBatches]
  | case2 todo h0 ih =>
    rw [trimBatches, if_neg h0]
    intro b hb
    rcases List.mem_cons.1 hb with rfl | hmem
    · exact Nat.min_le_left _ _
    · exact ih b hmem

/-- The purge trims add up to the captured total. -/
theorem trimBatches_sum (todo : Nat) : (trimBatches todo).sum = todo := by
  induction todo using trimBatches.induct with
  | case1 => simp [trimBatches]
  | case2 todo h0 ih =>
    rw [trimBatches, if_neg h0, List.sum_cons, ih]
    omega

/-- A purge of 250 items issues exactly three trims: 100, 100, 50. -/
theorem trimBatches_250 : trimBatches 250 = [100, 100, 50] := by
  simp [trimBatches, purgeBatchSize]

/-- The captured `LLen` of a list-valued key. -/
theorem llenVal_list (s : Store) (k : String) (xs : List String)
    (h : s k = .list xs) : llenVal s k = xs.length := by
  unfold llenVal
  rw [h]

/-- `deleteRedisList` returns the initially captured length. -/
theorem deleteRedisList_count (s : Store) (k : String) (xs : List String)
    (h : s k = .list xs) : (deleteRedisList s k).2 = xs.length := by
  simp only [deleteRedisList, llenVal_list s k xs h]
  split
  · rename_i h0
    simp [h0]
  · rfl

/-- `deleteRedisList` leaves its key holding the empty list. -/
theorem deleteRedisList_empties (s : Store) (k : String) (xs : List String)
    (h : s k = .list xs) : (deleteRedisList s k).1 k = RValue.list [] := by
  simp only [deleteRedisList, llenVal_list s k xs h]
  split
  · rename_i h0
    show s k = RValue.list []
    rw [h]
    congr 1
    exact List.length_eq_zero.1 h0
  · exact deleteRedisListLoop_empties s k _ xs h rfl

/-- `deleteRedisList` touches only its own key. -/
theorem deleteRedisList_frame (s : Store) (k : String) :
    ∀ k', k' ≠ k → (deleteRedisList s k).1 k' = s k' := by
  intro k' h
  simp only [deleteRedisList]
  split
  · rfl
  · exact deleteRedisListLoop_frame s k _ k' h

/-- C6 (counterexample): `ReadyCount` applied to a store error that is
not `redis.Nil` does not yield 0 — `redisErrIsNil` panics instead
(queue.go:536), so the claim "a store error during the read yields the
result 0" is false for non-Nil errors. -/
theorem readyCount_error_cex :
    readyCount (Except.error RedisErr.otherErr) ≠ some 0 := by
  decide

/-- C6 (amended): for every count accessor, a `redis.Nil` error yields
0, a successful read yields the read value, and any other store error
is fatal (the accessor panics and returns nothing to the caller); in no
case is an error propagated. -/
theorem countAccessors_error_behavior :
    ∀ v : Int,
      (readyCount (.error .nilErr) = some 0 ∧ readyCount (.ok v) = some v ∧
        readyCount (.error .wrongType) = none ∧
        readyCount (.error .otherErr) = none) ∧
      (unackedCount (.error .nilErr) = some 0 ∧ unackedCount (.ok v) = some v ∧
        unackedCount (.error .wrongType) = none ∧
        unackedCount (.error .otherErr) = none) ∧
      (rejectedCount (.error .nilErr) = some 0 ∧ rejectedCount (.ok v) = some v ∧
        rejectedCount (.error .wrongType) = none ∧
        rejectedCount (.error .otherErr) = none) ∧
      (delayedCount (.error .nilErr) = some 0 ∧ delayedCount (.ok v) = some v ∧
        delayedCount (.error .wrongType) = none ∧
        delayedCount (.error .otherErr) = none) :=
  fun _ =>
    ⟨⟨rfl, rfl, rfl, rfl⟩, ⟨rfl, rfl, rfl, rfl⟩,
     ⟨rfl, rfl, rfl, rfl⟩, ⟨rfl, rfl, rfl, rfl⟩⟩

/-- C7: if `StartConsuming` succeeded on a queue instance, a second
call returns `false` and leaves the instance state unchanged — the
delivery channel is not replaced, prefetch limit and poll duration keep
their values, and no further `consume` loop is launched
(`consumeLoops` unchanged, since the whole state is unchanged). -/
theorem startConsuming_second_false (q : QState) (r : Except RedisErr Int)
    (pl pd : Int) (q1 : QState) (r' : Except RedisErr Int) (pl' pd' : Int)
    (h : startConsuming q r pl pd = some (q1, true)) :
    startConsuming q1 r' pl' pd' = some (q1, false) := by
  cases hq : q.deliveryChan with
  | some c => simp [startConsuming, hq] at h
  | none =>
    cases r with
    | error e => cases e <;> simp [startConsuming, hq, redisErrIsNil] at h
    | ok v =>
      simp [startConsuming, hq, redisErrIsNil] at h
      subst h
      simp [startConsuming]

/-- C7 (witness). -/
theorem startConsuming_second_false_witness :
    startConsuming (⟨some 5, 5, 7, false, 1⟩ : QState) (.ok 2) 9 9 =
      some (⟨some 5, 5, 7, false, 1⟩, false) :=
  startConsuming_second_false ⟨none, 0, 0, false, 0⟩ (.ok 1) 5 7
    ⟨some 5, 5, 7, false, 1⟩ (.ok 2) 9 9 (by rfl)

/-- C10: once `StopConsuming` returned `true`, the instance can never
be restarted: the delivery channel stays non-nil (so any later
`StartConsuming` returns `false` without changing the state) and the
stopped flag stays set (so any later `StopConsuming` returns
`false`). -/
theorem stopConsuming_permanent (q q' : QState)
    (h : stopConsuming q = (q', true)) :
    (∀ r pl pd, startConsuming q' r pl pd = some (q', false)) ∧
    stopConsuming q' = (q', false) ∧
    q'.deliveryChan ≠ none ∧ q'.consumingStopped = true := by
  unfold stopConsuming at h
  split at h
  · exact absurd (congrArg Prod.snd h) (by simp)
  · rename_i hcond
    have hq' : q' = { q with consumingStopped := true } :=
      (congrArg Prod.fst h).symm
    have hchan : q.deliveryChan ≠ none := fun hn => hcond (Or.inl hn)
    subst hq'
    refine ⟨?_, ?_, hchan, rfl⟩
    · intro r pl pd
      cases hc : q.deliveryChan with
      | none => exact absurd hc hchan
      | some c => simp [startConsuming, hc]
    · simp [stopConsuming]

/-- A successful `RPopLPush` leaves the channel buffer untouched and
pops the right end of ready. -/
theorem rpoplpush_some (st : CBState) (x : String) (st' : CBState)
    (h : rpoplpush st = some (x, st')) :
    st'.buffer = st.buffer ∧ st'.ready = st.ready.dropLast := by
  unfold rpoplpush at h
  cases hg : st.ready.getLast? with
  | none => rw [hg] at h; exact absurd h (by simp)
  | some y =>
    rw [hg] at h
    simp only [Option.some.injEq, Prod.mk.injEq] at h
    obtain ⟨-, hst⟩ := h
    subst hst
    exact ⟨rfl, rfl⟩

/-- The pop loop of `consumeBatch` enqueues at most one delivery per
iteration. -/
theorem consumeLoop_buffer_le (n : Nat) : ∀ st : CBState,
    ((consumeLoop st n).1).buffer.length ≤ st.buffer.length + n := by
  induction n with
  | zero => intro st; simp [consumeLoop]
  | succ n ih =>
    intro st
    simp only [consumeLoop]
    cases h : rpoplpush st with
    | none => simp
    | some p =>
      obtain ⟨x, st'⟩ := p
      have hlen : st'.buffer.length = st.buffer.length := by
        rw [(rpoplpush_some st x st' h).1]
      have hih := ih { st' with buffer := st'.buffer ++ [x] }
      simp only [List.length_append, List.length_cons, List.length_nil] at hih
      show ((consumeLoop { st' with buffer := st'.buffer ++ [x] } n).1).buffer.length
        ≤ st.buffer.length + (n + 1)
      omega

/-- C10 (witness). -/
theorem stopConsuming_permanent_witness :
    startConsuming (⟨some 5, 5, 7, true, 1⟩ : QState) (.ok 1) 9 9 =
      some (⟨some 5, 5, 7, true, 1⟩, false) ∧
    stopConsuming (⟨some 5, 5, 7, true, 1⟩ : QState) =
      (⟨some 5, 5, 7, true, 1⟩, false) :=
  have h := stopConsuming_permanent ⟨some 5, 5, 7, false, 1⟩
    ⟨some 5, 5, 7, true, 1⟩ (by rfl)
  ⟨h.1 (.ok 1) 9 9, h.2.1⟩

/-- C2: each iteration's batch size is
`min(readyCount, prefetchLimit − buffered)` (Go `int` arithmetic, so the
value may be ≤ 0); when the buffer already holds at least
`prefetchLimit` deliveries the batch size is ≤ 0 and `consumeBatch`
changes nothing (no pop from ready); and after `consumeBatch` the
buffer never exceeds `max prefetchLimit buffered`, i.e. the loop never
enqueues beyond the buffer's remaining capacity. -/
theorem batchSize_backpressure (pl : Int) (ready : Nat) (st : CBState) :
    batchSize pl st.buffer.length ready =
      min (ready : Int) (pl - st.buffer.length) ∧
    (pl ≤ (st.buffer.length : Int) →
      batchSize pl st.buffer.length ready ≤ 0 ∧
      (consumeBatch st (batchSize pl st.buffer.length ready)).1 = st) ∧
    ((consumeBatch st (batchSize pl st.buffer.length ready)).1.buffer.length
      : Int) ≤ max pl (st.buffer.length : Int) := by
  have hmin : batchSize pl st.buffer.length ready =
      min (ready : Int) (pl - st.buffer.length) := by
    simp only [batchSize]
    split <;> omega
  have hnonpos : ∀ bs : Int, bs ≤ 0 → (consumeBatch st bs).1 = st := by
    intro bs hbs
    unfold consumeBatch
    split
    · rfl
    · rw [Int.toNat_of_nonpos hbs]; rfl
  refine ⟨hmin, fun hfull => ⟨by rw [hmin]; omega, ?_⟩, ?_⟩
  · exact hnonpos _ (by rw [hmin]; omega)
  · rcases le_or_lt (batchSize pl st.buffer.length ready) 0 with hle | hpos
    · rw [hnonpos _ hle]
      simp [le_max_right]
    · have hb := consumeLoop_buffer_le
        (batchSize pl st.buffer.length ready).toNat st
      have hbs : batchSize pl st.buffer.length ready ≤
          pl - st.buffer.length := by rw [hmin]; omega
      unfold consumeBatch
      split
      · simp [le_max_right]
      · omega

/-- Evaluation of one protocol step: receiving an item while still
below the batch size appends it and reports whether the timer was
reset. -/
theorem bstep_item_below (lim : Int) (s : BState) (d : String)
    (h : (((s.batch ++ [d]).length : Int) < lim)) :
    bstep lim s (.item d) =
      ⟨⟨s.batch ++ [d],
        if (s.batch ++ [d]).length = 1 then true else s.armed⟩,
       [], decide ((s.batch ++ [d]).length = 1), false⟩ := by
  have he : bstep lim s (.item d) =
      if (((s.batch ++ [d]).length : Int) < lim) then
        ⟨⟨s.batch ++ [d],
          if (s.batch ++ [d]).length = 1 then true else s.armed⟩,
         [], decide ((s.batch ++ [d]).length = 1), false⟩
      else
        ⟨⟨[], false⟩, [s.batch ++ [d]],
         decide ((s.batch ++ [d]).length = 1), false⟩ := rfl
  rw [he, if_pos h]

/-- Evaluation of one protocol step: receiving an item that fills the
batch flushes it, clears the batch and disarms the timer. -/
theorem bstep_item_flush (lim : Int) (s : BState) (d : String)
    (h : ¬ (((s.batch ++ [d]).length : Int) < lim)) :
    bstep lim s (.item d) =
      ⟨⟨[], false⟩, [s.batch ++ [d]],
       decide ((s.batch ++ [d]).length = 1), false⟩ := by
  have he : bstep lim s (.item d) =
      if (((s.batch ++ [d]).length : Int) < lim) then
        ⟨⟨s.batch ++ [d],
          if (s.batch ++ [d]).length = 1 then true else s.armed⟩,
         [], decide ((s.batch ++ [d]).length = 1), false⟩
      else
        ⟨⟨[], false⟩, [s.batch ++ [d]],
         decide ((s.batch ++ [d]).length = 1), false⟩ := rfl
  rw [he, if_neg h]

/-- Evaluation of one protocol step: a timer fire while armed flushes
the accumulated batch. -/
theorem bstep_timer_armed (lim : Int) (s : BState) (h : s.armed = true) :
    bstep lim s .timer = ⟨⟨[], false⟩, [s.batch], false, false⟩ := by
  have he : bstep lim s .timer =
      if s.armed then ⟨⟨[], false⟩, [s.batch], false, false⟩
      else ⟨s, [], false, false⟩ := rfl
  rw [he, if_pos h]

/-- Evaluation of one protocol step: a drained timer cannot fire while
idle, so nothing happens. -/
theorem bstep_timer_idle (lim : Int) (s : BState) (h : s.armed = false) :
    bstep lim s .timer = ⟨s, [], false, false⟩ := by
  have he : bstep lim s .timer =
      if s.armed then ⟨⟨[], false⟩, [s.batch], false, false⟩
      else ⟨s, [], false, false⟩ := rfl
  rw [he, if_neg (by simp [h])]

/-- Unfolding of the protocol run on one event. -/
theorem runBatchConsume_cons (lim : Int) (e : BEvent) (es : List BEvent)
    (s : BState) :
    runBatchConsume lim (e :: es) s =
      if (bstep lim s e).stopped then (s, [])
      else ((runBatchConsume lim es (bstep lim s e).next).1,
        (bstep lim s e).flushes ++
          (runBatchConsume lim es (bstep lim s e).next).2) :=
  rfl

/-- Flushed batches are never empty, and the protocol preserves the
invariant that an armed timer implies a non-empty batch. -/
theorem runBatchConsume_inv (lim : Int) (es : List BEvent) :
    ∀ s : BState, (s.armed = true → s.batch ≠ []) →
      ((runBatchConsume lim es s).1.armed = true →
        (runBatchConsume lim es s).1.batch ≠ []) ∧
      ∀ f ∈ (runBatchConsume lim es s).2, f ≠ [] := by
  induction es with
  | nil => intro s hs; simpa [runBatchConsume] using hs
  | cons e es ih =>
    intro s hs
    cases e with
    | closed =>
      rw [runBatchConsume_cons]
      simpa [bstep] using hs
    | timer =>
      cases ha : s.armed with
      | false =>
        rw [runBatchConsume_cons, bstep_timer_idle lim s ha]
        dsimp only
        simp only [Bool.false_eq_true, if_false, List.nil_append]
        exact ih s hs
      | true =>
        rw [runBatchConsume_cons, bstep_timer_armed lim s ha]
        dsimp only
        simp only [Bool.false_eq_true, if_false, List.singleton_append,
          List.mem_cons, ne_eq]
        have hnext := ih ⟨[], false⟩ (by simp)
        refine ⟨hnext.1, ?_⟩
        rintro f (rfl | hf)
        · exact hs ha
        · exact hnext.2 f hf
    | item d =>
      by_cases hlt : (((s.batch ++ [d]).length : Int) < lim)
      · rw [runBatchConsume_cons, bstep_item_below lim s d hlt]
        dsimp only
        simp only [Bool.false_eq_true, if_false, List.nil_append]
        exact ih _ (fun _ => by simp)
      · rw [runBatchConsume_cons, bstep_item_flush lim s d hlt]
        dsimp only
        simp only [Bool.false_eq_true, if_false, List.singleton_append,
          List.mem_cons, ne_eq]
        have hnext := ih ⟨[], false⟩ (by simp)
        refine ⟨hnext.1, ?_⟩
        rintro f (rfl | hf)
        · simp
        · exact hnext.2 f hf

/-- The concatenation of the flushed batches followed by the still
pending batch is exactly the sequence of deliveries received, in
order: nothing is lost, duplicated, or reordered. -/
theorem runBatchConsume_flatten (lim : Int) (es : List BEvent) :
    ∀ s : BState,
      (runBatchConsume lim es s).2.flatten ++
          (runBatchConsume lim es s).1.batch =
        s.batch ++ itemsUntilClosed es := by
  induction es with
  | nil => intro s; simp [runBatchConsume, itemsUntilClosed]
  | cons e es ih =>
    intro s
    cases e with
    | closed =>
      rw [runBatchConsume_cons]
      simp [bstep, itemsUntilClosed]
    | timer =>
      cases ha : s.armed with
      | false =>
        rw [runBatchConsume_cons, bstep_timer_idle lim s ha]
        dsimp only
        simp only [Bool.false_eq_true, if_false, List.nil_append]
        rw [ih s]
        simp [itemsUntilClosed]
      | true =>
        rw [runBatchConsume_cons, bstep_timer_armed lim s ha]
        dsimp only
        simp only [Bool.false_eq_true, if_false, List.singleton_append,
          List.flatten_cons, List.append_assoc]
        rw [ih ⟨[], false⟩]
        simp [itemsUntilClosed]
    | item d =>
      by_cases hlt : (((s.batch ++ [d]).length : Int) < lim)
      · rw [runBatchConsume_cons, bstep_item_below lim s d hlt]
        dsimp only
        simp only [Bool.false_eq_true, if_false, List.nil_append]
        rw [ih]
        simp [itemsUntilClosed]
      · rw [runBatchConsume_cons, bstep_item_flush lim s d hlt]
        dsimp only
        simp only [Bool.false_eq_true, if_false, List.singleton_append,
          List.flatten_cons, List.append_assoc, List.cons_append,
          List.nil_append]
        rw [ih ⟨[], false⟩]
        simp [itemsUntilClosed]

/-- `timer.Reset` is called on receiving an item exactly when the batch
was empty before it, i.e. only the first item of a batch arms the
timer. -/
theorem bstep_didReset (lim : Int) (s : BState) (d : String) :
    (bstep lim s (.item d)).didReset = true ↔ s.batch = [] := by
  by_cases hlt : (((s.batch ++ [d]).length : Int) < lim)
  · rw [bstep_item_below lim s d hlt]
    simp
  · rw [bstep_item_flush lim s d hlt]
    simp

/-- C3: running the batch-consumer protocol from its initial state over
any sequence of observed events: (1) no flush callback ever receives
zero items; (2) the flushed batches, in order, concatenate (with the
still-pending batch) to exactly the received deliveries — so no
delivery reaches two callback invocations and flushes preserve receipt
order; (3) an armed timer implies a non-empty pending batch, and
receiving a further item while armed does not reset the timer: the
timer is reset only by the first item of a batch. -/
theorem consumerBatchConsume_protocol (lim : Int) (events : List BEvent) :
    (∀ f ∈ (runBatchConsume lim events ⟨[], false⟩).2, f ≠ []) ∧
    (runBatchConsume lim events ⟨[], false⟩).2.flatten ++
        (runBatchConsume lim events ⟨[], false⟩).1.batch =
      itemsUntilClosed events ∧
    ((runBatchConsume lim events ⟨[], false⟩).1.armed = true →
      (runBatchConsume lim events ⟨[], false⟩).1.batch ≠ []) ∧
    (∀ d, (bstep lim (runBatchConsume lim events ⟨[], false⟩).1
        (.item d)).didReset = true ↔
      (runBatchConsume lim events ⟨[], false⟩).1.batch = []) ∧
    (∀ d, (runBatchConsume lim events ⟨[], false⟩).1.armed = true →
      (bstep lim (runBatchConsume lim events ⟨[], false⟩).1
        (.item d)).didReset = false) := by
  have hinv := runBatchConsume_inv lim events ⟨[], false⟩ (by simp)
  have hflat := runBatchConsume_flatten lim events ⟨[], false⟩
  refine ⟨hinv.2, by simpa using hflat, hinv.1,
    fun d => bstep_didReset _ _ _, ?_⟩
  intro d ha
  cases hr : (bstep lim (runBatchConsume lim events ⟨[], false⟩).1
      (.item d)).didReset with
  | false => rfl
  | true => exact absurd ((bstep_didReset _ _ _).1 hr) (hinv.1 ha)

/-- C3 (witness): with batch size 2, the trace
item a, item b, item c, timer flushes `[a, b]` (size reached) then
`[c]` (timeout), never an empty batch. -/
theorem consumerBatchConsume_protocol_witness :
    (runBatchConsume 2 [.item "a", .item "b", .item "c", .timer]
        ⟨[], false⟩).2 = [["a", "b"], ["c"]] ∧
    itemsUntilClosed [BEvent.item "a", .item "b", .item "c", .timer] =
      ["a", "b", "c"] :=
  have h := consumerBatchConsume_protocol 2
    [.item "a", .item "b", .item "c", .timer]
  ⟨by decide, by decide⟩

/-- C2 (witness). -/
theorem batchSize_backpressure_witness :
    batchSize 10 2 7 = min (7 : Int) (10 - 2) ∧
    (consumeBatch ⟨["a", "b", "c"], [], ["x", "y"]⟩
      (batchSize 10 2 7)).1.buffer.length ≤ (10 : Int) := by
  have h := batchSize_backpressure 10 7 ⟨["a", "b", "c"], [], ["x", "y"]⟩
  have h1 := h.1
  have h3 := h.2.2
  norm_num at h1 h3 ⊢
  exact ⟨h1, h3⟩

/-- No iteration of the consume loop emits a channel close. -/
theorem closeChan_not_mem_iterActions (wantMore : Nat → Bool) (n : Nat) :
    CAction.closeChan ∉ iterActions wantMore n := by
  cases h : wantMore n <;> simp [iterActions, h]

/-- C4 (counterexample): a run of the consumption loop that observes
the stop flag in its first iteration terminates with zero close
operations on the delivery channel — the loop never closes it, so "the
loop then closes that buffer exactly once" fails. -/
theorem consume_close_cex :
    ¬ ((consumeRun (fun _ => true) (fun _ => true) 1 0).count
        CAction.closeChan = 1) := by
  decide

/-- C4 (amended): once the stop flag is observed at the end of an
iteration, the loop exits after finishing exactly that iteration; but
no run of the loop ever emits a close of the delivery buffer — the
function returns without `close(queue.deliveryChan)`, so consumers
ranging over the channel are not terminated by channel closure. -/
theorem consume_stops_without_close (wantMore stopped : Nat → Bool)
    (fuel n : Nat) :
    CAction.closeChan ∉ consumeRun wantMore stopped fuel n ∧
    (stopped n = true →
      consumeRun wantMore stopped (fuel + 1) n = iterActions wantMore n) := by
  constructor
  · induction fuel generalizing n with
    | zero => simp [consumeRun]
    | succ fuel ih =>
      simp only [consumeRun, List.mem_append]
      rintro (h | h)
      · exact closeChan_not_mem_iterActions wantMore n h
      · rcases hst : stopped n with hv | hv
        · rw [hst] at h
          simp only [Bool.false_eq_true, if_false] at h
          exact ih (n + 1) h
        · rw [hst] at h
          simp at h
  · intro hst
    simp [consumeRun, hst]

/-- C4 (witness). -/
theorem consume_stops_without_close_witness :
    consumeRun (fun _ => false) (fun _ => true) 3 0 =
      iterActions (fun _ => false) 0 :=
  (consume_stops_without_close (fun _ => false) (fun _ => true) 2 0).2 rfl

/-- The chunks of the migration script's push loop reassemble to the
selected members. -/
theorem chunks100_flatten (l : List String) : (chunks100 l).flatten = l := by
  induction l using chunks100.induct with
  | case1 => simp [chunks100]
  | case2 a as ih => rw [chunks100, List.flatten_cons, ih, List.take_append_drop]

/-- Each chunk pushed by the migration script has at most 100
members. -/
theorem chunks100_length_le (l : List String) :
    ∀ c ∈ chunks100 l, c.length ≤ 100 := by
  induction l using chunks100.induct with
  | case1 => simp [chunks100]
  | case2 a as ih =>
    rw [chunks100]
    intro c hc
    rcases List.mem_cons.1 hc with rfl | h
    · exact List.length_take_le 100 (a :: as)
    · exact ih c h

/-- Folding list append over chunks appends their concatenation. -/
theorem foldl_append_flatten (L : List (List String)) :
    ∀ r : List String, L.foldl (fun a b => a ++ b) r = r ++ L.flatten := by
  induction L with
  | nil => simp
  | cons c L ih => intro r; simp [ih, List.append_assoc]

/-- On a rank-ordered (score-sorted) sorted set, removing as many
lowest ranks as there are entries with score ≤ `now` removes exactly
the entries with score ≤ `now`, leaving those with score > `now`. -/
theorem sorted_drop_filter (now : Int) (xs : List SEntry)
    (h : xs.Pairwise (fun a b => a.score ≤ b.score)) :
    xs.drop ((xs.filter (fun e => e.score ≤ now)).length) =
      xs.filter (fun e => now < e.score) := by
  induction xs with
  | nil => simp
  | cons x xs ih =>
    rcases List.pairwise_cons.1 h with ⟨hx, hxs⟩
    by_cases hp : x.score ≤ now
    · rw [List.filter_cons_of_pos (by simpa using hp), List.length_cons,
        List.drop_succ_cons, ih hxs,
        List.filter_cons_of_neg (by simpa using hp)]
    · have hnil : xs.filter (fun e => decide (e.score ≤ now)) = [] := by
        rw [List.filter_eq_nil_iff]
        intro a ha
        have := hx a ha
        simp only [decide_eq_true_eq]
        omega
      rw [List.filter_cons_of_neg (by simpa using hp), hnil]
      simp only [List.length_nil, List.drop_zero]
      symm
      rw [List.filter_eq_self]
      intro a ha
      rcases List.mem_cons.1 ha with rfl | ha'
      · simp only [decide_eq_true_eq]; omega
      · have := hx a ha'
        simp only [decide_eq_true_eq]
        omega

/-- C1: on a score-sorted delayed set, the migration step removes
exactly the entries with score ≤ now (those with score > now are left
untouched, in place), appends exactly the members of the removed
entries to the ready list — in the set's rank order, i.e. ascending by
score — and pushes them in chunks of at most 100 entries that
concatenate to the selected members. -/
theorem migrateExpiredDeliveries_spec (delayed : List SEntry)
    (ready : List String) (now : Int)
    (hs : delayed.Pairwise (fun a b => a.score ≤ b.score)) :
    (migrateExpiredDeliveries delayed ready now).1 =
        delayed.filter (fun e => now < e.score) ∧
    (migrateExpiredDeliveries delayed ready now).2 =
        ready ++ (delayed.filter (fun e => e.score ≤ now)).map
          (fun e => e.member) ∧
    (chunks100 (zrangebyscoreUpTo delayed now)).flatten =
        zrangebyscoreUpTo delayed now ∧
    ∀ c ∈ chunks100 (zrangebyscoreUpTo delayed now), c.length ≤ 100 := by
  refine ⟨?_, ?_, chunks100_flatten _, chunks100_length_le _⟩
  · unfold migrateExpiredDeliveries
    by_cases hv : zrangebyscoreUpTo delayed now = []
    · rw [if_pos hv]
      have hnil : delayed.filter (fun e => decide (e.score ≤ now)) = [] := by
        have := congrArg List.length hv
        simpa [zrangebyscoreUpTo, List.length_eq_zero] using this
      symm
      rw [List.filter_eq_self]
      intro a ha
      have : ∀ b ∈ delayed, ¬ (decide (b.score ≤ now) = true) :=
        List.filter_eq_nil_iff.1 hnil
      have := this a ha
      simp only [decide_eq_true_eq] at *
      omega
    · rw [if_neg hv]
      have hlen : (zrangebyscoreUpTo delayed now).length =
          (delayed.filter (fun e => e.score ≤ now)).length := by
        simp [zrangebyscoreUpTo]
      simp only [hlen]
      exact sorted_drop_filter now delayed hs
  · unfold migrateExpiredDeliveries
    by_cases hv : zrangebyscoreUpTo delayed now = []
    · rw [if_pos hv]
      have : (delayed.filter (fun e => decide (e.score ≤ now))).map
          (fun e => e.member) = [] := hv
      rw [this]
      simp
    · rw [if_neg hv, foldl_append_flatten, chunks100_flatten]
      rfl

/-- C1 (witness): one due entry (score 1 ≤ now 3) migrates to ready,
one future entry (score 5) stays. -/
theorem migrateExpiredDeliveries_spec_witness :
    (migrateExpiredDeliveries [⟨"a", 1⟩, ⟨"b", 5⟩] ["r"] 3).1 =
      [⟨"b", 5⟩] ∧
    (migrateExpiredDeliveries [⟨"a", 1⟩, ⟨"b", 5⟩] ["r"] 3).2 =
      ["r", "a"] :=
  have h := migrateExpiredDeliveries_spec [⟨"a", 1⟩, ⟨"b", 5⟩] ["r"] 3
    (by decide)
  ⟨h.1.trans (by decide), h.2.1.trans (by decide)⟩

/-- `ZRemRangeByRank` touches only its own key. -/
theorem zremrangeDropFront_frame (s : Store) (k : String) (b : Nat)
    (k' : String) (h : k' ≠ k) : zremrangeDropFront s k b k' = s k' := by
  unfold zremrangeDropFront
  cases s k with
  | zset xs =>
    dsimp only
    split
    · rfl
    · exact Store.upd_ne _ _ _ _ h
  | list xs => rfl
  | rset xs => rfl
  | absent => rfl

/-- The sorted-set purge loop touches only its own key. -/
theorem deleteRedisSortedSetLoop_frame (s : Store) (k : String)
    (todo : Nat) :
    ∀ k', k' ≠ k → deleteRedisSortedSetLoop s k todo k' = s k' := by
  induction s, k, todo using deleteRedisSortedSetLoop.induct with
  | case1 s k =>
    intro k' h
    rw [deleteRedisSortedSetLoop, if_pos rfl]
  | case2 s k todo h0 ih =>
    intro k' h
    rw [deleteRedisSortedSetLoop, if_neg h0, ih k' h]
    exact zremrangeDropFront_frame s k _ k' h

/-- C9: `PurgeDelayed` operates entirely at the rejected-list key (the
source passes `queue.rejectedKey` to `deleteRedisSortedSet`): for every
store it leaves the delayed key — and every key other than the
rejected key — unchanged, and returns the sorted-set cardinality
measured at the rejected key. -/
theorem purgeDelayed_targets_rejected (n : String) (s : Store) :
    (purgeDelayed n s).2 = zcountVal s (rejectedKey n) ∧
    (purgeDelayed n s).1 (delayedKey n) = s (delayedKey n) ∧
    (∀ k, k ≠ rejectedKey n → (purgeDelayed n s).1 k = s k) := by
  have hframe : ∀ k, k ≠ rejectedKey n → (purgeDelayed n s).1 k = s k := by
    intro k hk
    simp only [purgeDelayed, deleteRedisSortedSet]
    split
    · rfl
    · exact deleteRedisSortedSetLoop_frame s (rejectedKey n) _ k hk
  have hcount : (purgeDelayed n s).2 = zcountVal s (rejectedKey n) := by
    simp only [purgeDelayed, deleteRedisSortedSet]
    split
    · rename_i h0
      exact h0.symm
    · rfl
  exact ⟨hcount, hframe _ (queue_keys_distinct n n).2.2.1.symm, hframe⟩

/-- C9 (witness): on the concrete store the rejected key holds a list,
so the sorted-set count there reads 0 and the not-yet-due delayed entry
survives `PurgeDelayed` untouched. -/
theorem purgeDelayed_targets_rejected_witness :
    (purgeDelayed "q" exStore).2 = 0 ∧
    (purgeDelayed "q" exStore).1 (delayedKey "q") =
      RValue.zset [("p", 5)] :=
  have h := purgeDelayed_targets_rejected "q" exStore
  ⟨h.1.trans (by decide), h.2.1.trans (by decide)⟩

/-- C8: `PurgeReady` captures the ready length N up front, performs its
deletion as the trims of `trimBatches N` — each removing at most
`purgeBatchSize` (100) elements, together accounting for all N (their
sum is N, and N = 250 gives exactly the three trims 100, 100, 50) —
leaves the ready key empty, and returns the captured N; `PurgeRejected`
behaves identically on the rejected key. -/
theorem purgeReady_trims_batched (n : String) (s : Store)
    (xs : List String) (h : s (readyKey n) = RValue.list xs) :
    (purgeReady n s).2 = xs.length ∧
    (purgeReady n s).1 =
      (trimBatches xs.length).foldl
        (fun t b => ltrimDropLast t (readyKey n) b) s ∧
    (purgeReady n s).1 (readyKey n) = RValue.list [] ∧
    (∀ b ∈ trimBatches xs.length, b ≤ purgeBatchSize) ∧
    (trimBatches xs.length).sum = xs.length ∧
    trimBatches 250 = [100, 100, 50] ∧
    ∀ ys : List String, s (rejectedKey n) = RValue.list ys →
      (purgeRejected n s).2 = ys.length ∧
      (purgeRejected n s).1 (rejectedKey n) = RValue.list [] := by
  refine ⟨deleteRedisList_count _ _ _ h, ?_, deleteRedisList_empties _ _ _ h,
    trimBatches_le _, trimBatches_sum _, trimBatches_250, ?_⟩
  · show (deleteRedisList s (readyKey n)).1 = _
    simp only [deleteRedisList, llenVal_list s (readyKey n) xs h]
    split
    · rename_i h0
      rw [h0, trimBatches, if_pos rfl]
      rfl
    · exact deleteRedisListLoop_eq_batches s (readyKey n) xs.length
  · intro ys hys
    exact ⟨deleteRedisList_count _ _ _ hys, deleteRedisList_empties _ _ _ hys⟩

/-- C8 (witness). -/
theorem purgeReady_trims_batched_witness :
    (purgeReady "q" exStore).2 = 1 ∧
    (purgeReady "q" exStore).1 (readyKey "q") = RValue.list [] :=
  have h := purgeReady_trims_batched "q" exStore ["r1"] (by decide)
  ⟨h.1, h.2.2.1⟩

/-- Full evaluation of `Close` on a store whose registry key holds a
set: purge rejected, purge ready, then remove the name from the
registry; the returned flag records whether a member was removed. -/
theorem closeQueue_eval (n : String) (s : Store) (rs : List String)
    (hreg : s queuesKey = RValue.rset rs) :
    closeQueue n s = some
      (((deleteRedisList (deleteRedisList s (rejectedKey n)).1
          (readyKey n)).1).upd queuesKey
        (RValue.rset (rs.filter (fun x => x ≠ n))),
       decide ((rs.count n : Int) > 0)) := by
  have h2reg : (deleteRedisList (deleteRedisList s (rejectedKey n)).1
      (readyKey n)).1 queuesKey = RValue.rset rs := by
    rw [deleteRedisList_frame _ (readyKey n) queuesKey
        (queue_keys_distinct n n).2.2.2.1,
      deleteRedisList_frame _ (rejectedKey n) queuesKey
        (queue_keys_distinct n n).2.2.2.2.1,
      hreg]
  have hsrem : srem (deleteRedisList (deleteRedisList s (rejectedKey n)).1
      (readyKey n)).1 queuesKey n =
      ((deleteRedisList (deleteRedisList s (rejectedKey n)).1
          (readyKey n)).1.upd queuesKey
        (RValue.rset (rs.filter (fun x => x ≠ n))),
       Except.ok ((rs.count n : Int))) := by
    simp only [srem, h2reg]
  simp only [closeQueue, purgeRejected, purgeReady, hsrem, redisErrIsNil,
    resVal]

/-- C5 (amended): `Close` purges the ready and rejected lists and
removes the queue name from the global registry, but it does not purge
the delayed sorted set — the delayed key, like the per-connection
unacked key, is left exactly as it was.  The returned flag is whether
the name was in the registry. -/
theorem closeQueue_spec (n c : String) (s : Store) (xs ys rs : List String)
    (hready : s (readyKey n) = RValue.list xs)
    (hrej : s (rejectedKey n) = RValue.list ys)
    (hreg : s queuesKey = RValue.rset rs) :
    (closeQueue n s).isSome = true ∧
    ∀ s' b, closeQueue n s = some (s', b) →
      s' (readyKey n) = RValue.list [] ∧
      s' (rejectedKey n) = RValue.list [] ∧
      s' queuesKey = RValue.rset (rs.filter (fun x => x ≠ n)) ∧
      s' (delayedKey n) = s (delayedKey n) ∧
      s' (unackedKey c n) = s (unackedKey c n) ∧
      (b = true ↔ 0 < rs.count n) := by
  obtain ⟨hd1, hd2, hd3, hd4, hd5, hd6, hd7, hd8, hd9, hd10⟩ :=
    queue_keys_distinct n c
  have hcq := closeQueue_eval n s rs hreg
  refine ⟨by rw [hcq]; rfl, ?_⟩
  intro s' b heq
  rw [hcq] at heq
  injection heq with h1
  have hs' : s' = (deleteRedisList (deleteRedisList s (rejectedKey n)).1
      (readyKey n)).1.upd queuesKey
        (RValue.rset (rs.filter (fun x => x ≠ n))) :=
    (congrArg Prod.fst h1).symm
  have hb : b = decide ((rs.count n : Int) > 0) :=
    (congrArg Prod.snd h1).symm
  have h1rej : (deleteRedisList s (rejectedKey n)).1 (rejectedKey n) =
      RValue.list [] := deleteRedisList_empties _ _ _ hrej
  have h1ready : (deleteRedisList s (rejectedKey n)).1 (readyKey n) =
      RValue.list xs :=
    (deleteRedisList_frame _ _ _ hd1).trans hready
  subst hs' hb
  refine ⟨?_, ?_, ?_, ?_, ?_, ?_⟩
  · rw [Store.upd_ne _ _ _ _ hd4.symm]
    exact deleteRedisList_empties _ _ _ h1ready
  · rw [Store.upd_ne _ _ _ _ hd5.symm,
      deleteRedisList_frame _ _ _ hd1.symm]
    exact h1rej
  · exact Store.upd_self _ _ _
  · rw [Store.upd_ne _ _ _ _ hd6.symm,
      deleteRedisList_frame _ _ _ hd2.symm,
      deleteRedisList_frame _ _ _ hd3.symm]
  · rw [Store.upd_ne _ _ _ _ hd10,
      deleteRedisList_frame _ _ _ hd7,
      deleteRedisList_frame _ _ _ hd8]
  · rw [decide_eq_true_eq]
    omega

/-- C5 (witness). -/
theorem closeQueue_spec_witness :
    (closeQueue "q" exStore).isSome = true :=
  (closeQueue_spec "q" "c" exStore ["r1"] ["j1"] ["q"] (by decide)
    (by decide) (by decide)).1

/-- C5 (counterexample): closing queue `q` on a store with a pending
delayed entry leaves the delayed sorted set non-empty — its cardinality
after `Close` is 1, not 0, so "closing purges all three owned lists
(ready, rejected, and delayed)" is false for the delayed set. -/
theorem closeQueue_delayed_cex :
    (closeQueue "q" exStore).map
        (fun p => zcountVal p.1 (delayedKey "q")) = some 1 ∧
    (closeQueue "q" exStore).map
        (fun p => zcountVal p.1 (delayedKey "q")) ≠ some 0 := by
  have hcq := closeQueue_eval "q" exStore ["q"] (by decide)
  have hone : (closeQueue "q" exStore).map
      (fun p => zcountVal p.1 (delayedKey "q")) = some 1 := by
    rw [hcq]
    simp only [Option.map_some']
    have hval : ((deleteRedisList (deleteRedisList exStore
        (rejectedKey "q")).1 (readyKey "q")).1.upd queuesKey
          (RValue.rset ((["q"] : List String).filter (fun x => x ≠ "q"))))
        (delayedKey "q") = exStore (delayedKey "q") := by
      rw [Store.upd_ne _ _ _ _ (queue_keys_distinct "q" "q").2.2.2.2.2.1.symm,
        deleteRedisList_frame _ _ _ (queue_keys_distinct "q" "q").2.1.symm,
        deleteRedisList_frame _ _ _ (queue_keys_distinct "q" "q").2.2.1.symm]
    have : zcountVal ((deleteRedisList (deleteRedisList exStore
        (rejectedKey "q")).1 (readyKey "q")).1.upd queuesKey
          (RValue.rset ((["q"] : List String).filter (fun x => x ≠ "q"))))
        (delayedKey "q") = zcountVal exStore (delayedKey "q") := by
      unfold zcountVal
      rw [hval]
    rw [this]
    decide
  exact ⟨hone, by rw [hone]; simp⟩

end Rmq
